import Mathlib

/-!
Shallow embedding of the storage engine in `src/api/spider/storage.py`
(`class NewsStorage`, backed by Redis).

The Redis state reachable from `NewsStorage` is modelled explicitly:

* the global timeline sorted set `news:timeline`  → `Store.timeline`,
  an association list `member → score` with scores as `Int`
  (Python/Redis integer scores; members unique in a real sorted set);
* the per-category sorted sets `news:category:<c>` → `Store.catTimelines`;
* the list-field hashes `news:list:<id>` → `Store.listHashes`
  (`save_news` always writes exactly the six fields of `Projection`;
  the source stores `publish_time` as `str(score)` and `get_news_list`
  parses it back with `int(...)`, which round-trips, so the field is
  carried as `Int` directly);
* the detail strings `news:detail:<id>` → `Store.details`
  (the source stores `json.dumps(news_data)` and `get_news_detail`
  applies `json.loads`, which round-trips for string-valued dicts, so
  the payload dict is carried directly);
* the category registry set `news:categories` → `Store.categories`.

Key-level TTLs (`expire`/`setex` 7-day horizons) are not modelled: no
claim depends on clock-driven key expiry, only on the explicit sweep.
A missing Redis key and an empty collection are observationally the
same here because every read goes through a `getD`-style accessor,
mirroring Redis where an empty hash/zset key does not exist.
-/

namespace Spider

/-- A Python dict with string keys and string-ish values, as used for
`news_data`; `dget` mirrors `dict.get(k, "")`. -/
abbrev NewsData := List (String × String)

/-- Association-list lookup: first binding wins, like a Redis key space
or a Python dict read. -/
def alookup {α : Type} (k : String) : List (String × α) → Option α
  | [] => none
  | p :: ps => if p.1 = k then some p.2 else alookup k ps

/-- `dict.get(k, "")` on a `news_data` payload. -/
def dget (d : NewsData) (k : String) : String := (alookup k d).getD ""

/-- Overwrite-or-insert a binding, as a Redis `SET`/`HSET`/`ZADD` on one
member: any previous binding for the key is dropped. -/
def alistSet {α : Type} (l : List (String × α)) (k : String) (v : α) :
    List (String × α) :=
  l.filter (fun p => p.1 ≠ k) ++ [(k, v)]

/-- Delete a binding, as a Redis `DEL`/`ZREM`/`HDEL` of one key/member. -/
def alistDel {α : Type} (l : List (String × α)) (k : String) :
    List (String × α) :=
  l.filter (fun p => p.1 ≠ k)

/-- The six list fields written by `save_news` into `news:list:<id>`. -/
structure Projection where
  title : String
  category : String
  publish_time : Int
  author : String
  pic_path : String
  url : String
deriving DecidableEq, Repr

/-- One element of `get_news_list`'s `items`: the stored hash fields with
`publish_time` parsed back to an int and the id spliced in (lines
109–115 of `storage.py`). -/
structure Item where
  title : String
  category : String
  publish_time : Int
  author : String
  pic_path : String
  url : String
  id : String
deriving DecidableEq, Repr

/-- The dict returned by `get_news_list`. -/
structure ListResult where
  items : List Item
  total : Nat
  page : Int
  page_size : Int
  has_next : Bool
deriving DecidableEq, Repr

/-- The stats dict returned by `cleanup_old_news`. -/
structure Stats where
  deleted : Nat
  categories_cleaned : Nat
deriving DecidableEq, Repr

/-- The Redis state owned by `NewsStorage`. -/
structure Store where
  timeline : List (String × Int)
  catTimelines : List (String × List (String × Int))
  listHashes : List (String × Projection)
  details : List (String × NewsData)
  categories : List String
deriving DecidableEq, Repr

/-- The empty Redis database. -/
def emptyStore : Store := ⟨[], [], [], [], []⟩

/-- The sorted set stored at `news:category:<c>`; a missing key is the
empty set. -/
def catZ (s : Store) (c : String) : List (String × Int) :=
  (alookup c s.catTimelines).getD []

/-- `SADD`: set insertion. -/
def sadd (l : List String) (c : String) : List String :=
  if c ∈ l then l else l ++ [c]

/-- `SREM`: set removal. -/
def srem (l : List String) (c : String) : List String :=
  l.filter (fun x => x ≠ c)

/-- The order in which Redis returns a sorted set for `ZREVRANGE`:
by score descending, ties by member lexicographically descending
(Redis keeps equal-score members in ascending lex order and
`ZREVRANGE` walks them backwards). -/
def zle (a b : String × Int) : Prop :=
  b.2 < a.2 ∨ (a.2 = b.2 ∧ b.1 ≤ a.1)

instance : DecidableRel zle := fun a b =>
  inferInstanceAs (Decidable (b.2 < a.2 ∨ (a.2 = b.2 ∧ b.1 ≤ a.1)))

instance : IsTotal (String × Int) zle :=
  ⟨fun a b => by
    rcases lt_trichotomy a.2 b.2 with h | h | h
    · exact Or.inr (Or.inl h)
    · rcases le_total a.1 b.1 with h' | h'
      · exact Or.inr (Or.inr ⟨h.symm, h'⟩)
      · exact Or.inl (Or.inr ⟨h, h'⟩)
    · exact Or.inl (Or.inl h)⟩

instance : IsTrans (String × Int) zle :=
  ⟨fun a b c hab hbc => by
    rcases hab with h | ⟨h, h'⟩
    · rcases hbc with g | ⟨g, g'⟩
      · exact Or.inl (g.trans h)
      · exact Or.inl (g ▸ h)
    · rcases hbc with g | ⟨g, g'⟩
      · exact Or.inl (h ▸ g)
      · exact Or.inr ⟨h.trans g, g'.trans h'⟩⟩

/-- A sorted set materialised in `ZREVRANGE` order. -/
def sortZ (z : List (String × Int)) : List (String × Int) :=
  List.insertionSort zle z

/-- Redis rank normalisation for a start index over a set of
cardinality `n`: a negative index counts from the end, and a start
still negative after that clamps to 0. -/
def normStart (n : Nat) (i : Int) : Int :=
  if i < 0 then (if (n : Int) + i < 0 then 0 else (n : Int) + i) else i

/-- Redis rank normalisation for a stop index: a negative index counts
from the end. -/
def normStop (n : Nat) (i : Int) : Int :=
  if i < 0 then (n : Int) + i else i

/-- `ZREVRANGE key start stop` on the member/score pairs, with Redis's
rank normalisation.  Redis's early-exit cases (`start > stop`,
`start ≥ card`) coincide with the slice below being empty, and its
clamp of `stop` to `card - 1` coincides with `take` running past the
end of the list. -/
def zrevrangePairs (z : List (String × Int)) (start stop : Int) :
    List (String × Int) :=
  ((sortZ z).drop (normStart (sortZ z).length start).toNat).take
    (normStop (sortZ z).length stop - normStart (sortZ z).length start
      + 1).toNat

/-- `ZREVRANGE` as the source uses it: members only. -/
def zrevrange (z : List (String × Int)) (start stop : Int) : List String :=
  (zrevrangePairs z start stop).map (fun p => p.1)

/-- `ZRANGEBYSCORE key lo hi` (both bounds inclusive), members in
ascending score order — the reverse of `sortZ`'s descending order. -/
def zrangebyscore (z : List (String × Int)) (lo hi : Int) : List String :=
  (((sortZ z).filter (fun p => lo ≤ p.2 ∧ p.2 ≤ hi)).reverse).map
    (fun p => p.1)

/-- `ZREMRANGEBYSCORE key lo hi` (both bounds inclusive). -/
def zremrangebyscore (z : List (String × Int)) (lo hi : Int) :
    List (String × Int) :=
  z.filter (fun p => ¬ (lo ≤ p.2 ∧ p.2 ≤ hi))

/-- Line 46 of `storage.py`: `score = publish_time or int(time.time() * 1000)`.
Python's `or` falls through on falsy values, and the only falsy int is
`0`, so both `None` and `0` select the clock. -/
def effScore (publish_time : Option Int) (now : Int) : Int :=
  match publish_time with
  | some t => if t = 0 then now else t
  | none => now

/-- The `list_fields` dict built at lines 50–57 of `storage.py`. -/
def mkProjection (news_data : NewsData) (category : String) (score : Int) :
    Projection :=
  { title := dget news_data "title"
    category := category
    publish_time := score
    author := dget news_data "author"
    pic_path := dget news_data "pic_path"
    url := dget news_data "url" }

/-- `save_news` (lines 38–79): one pipeline writing the list hash, the
detail string, the global and category timeline entries, and the
category registration.  `now` stands for `int(time.time() * 1000)`. -/
def save_news (s : Store) (news_id : String) (news_data : NewsData)
    (category : String) (publish_time : Option Int) (now : Int) : Store :=
  let score := effScore publish_time now
  { s with
    listHashes := alistSet s.listHashes news_id
      (mkProjection news_data category score)
    details := alistSet s.details news_id news_data
    timeline := alistSet s.timeline news_id score
    catTimelines := alistSet s.catTimelines category
      (alistSet (catZ s category) news_id score)
    categories := sadd s.categories category }

/-- Line 87 of `storage.py`: the category zset when `category` is truthy
(non-`None` and non-empty), else the global timeline. -/
def selectZset (s : Store) (category : Option String) :
    List (String × Int) :=
  match category with
  | none => s.timeline
  | some c => if c = "" then s.timeline else catZ s c

/-- Lines 109–115: annotate a stored hash with its id. -/
def itemOf (news_id : String) (p : Projection) : Item :=
  { title := p.title
    category := p.category
    publish_time := p.publish_time
    author := p.author
    pic_path := p.pic_path
    url := p.url
    id := news_id }

/-- `get_news_list` (lines 81–123).  An id whose hash is missing
(empty dict, falsy) is skipped. -/
def get_news_list (s : Store) (category : Option String)
    (page : Int) (page_size : Int) : ListResult :=
  let zset := selectZset s category
  let total := zset.length
  if total = 0 then
    { items := [], total := 0, page := page, page_size := page_size,
      has_next := false }
  else
    let start := (page - 1) * page_size
    let stop := start + page_size - 1
    let news_ids := zrevrange zset start stop
    if news_ids = [] then
      { items := [], total := total, page := page, page_size := page_size,
        has_next := false }
    else
      let items := news_ids.filterMap
        (fun id => (alookup id s.listHashes).map (itemOf id))
      { items := items, total := total, page := page,
        page_size := page_size,
        has_next := decide ((start + (items.length : Int)) < (total : Int)) }

/-- `get_news_detail` (lines 125–134): absent key yields `None`; a found
payload gets `data["id"] = news_id` spliced in. -/
def get_news_detail (s : Store) (news_id : String) : Option NewsData :=
  match alookup news_id s.details with
  | some d => some (alistSet d "id" news_id)
  | none => none

/-- `get_categories` (lines 136–138). -/
def get_categories (s : Store) : List String := s.categories

/-- `delete_news` (lines 140–149): one pipeline deleting the hash, the
detail, both timeline entries, and — unconditionally — the category
from the registry. -/
def delete_news (s : Store) (news_id : String) (category : String) :
    Store :=
  { s with
    listHashes := alistDel s.listHashes news_id
    details := alistDel s.details news_id
    timeline := alistDel s.timeline news_id
    catTimelines := alistSet s.catTimelines category
      (alistDel (catZ s category) news_id)
    categories := srem s.categories category }

/-- The per-id deletions queued at lines 168–172 of `cleanup_old_news`. -/
def delStep (st : Store) (news_id : String) : Store :=
  { st with
    listHashes := alistDel st.listHashes news_id
    details := alistDel st.details news_id }

/-- The per-category `zremrangebyscore` loop at lines 178–182. -/
def sweepCatStep (cutoff : Int) (st : Store) (c : String) : Store :=
  { st with
    catTimelines := alistSet st.catTimelines c
      (zremrangebyscore (catZ st c) 0 cutoff) }

/-- `cleanup_old_news` (lines 151–188).  `now` stands for
`int(time.time() * 1000)`.  Ids with score in `[0, cutoff]` (inclusive)
are read from the global timeline; if none, the store is untouched;
otherwise their hash and detail keys are deleted, the score range
`[0, cutoff]` is removed from the global timeline, and the same range is
removed from the timeline of every category in the registry. -/
def cleanup_old_news (s : Store) (now : Int) (days : Int) : Store × Stats :=
  let cutoff := now - days * 86400 * 1000
  let old_ids := zrangebyscore s.timeline 0 cutoff
  if old_ids = [] then (s, { deleted := 0, categories_cleaned := 0 })
  else
    let s1 := old_ids.foldl delStep s
    let s2 := { s1 with
      timeline := zremrangebyscore s1.timeline 0 cutoff }
    let s3 := s.categories.foldl (sweepCatStep cutoff) s2
    (s3, { deleted := old_ids.length,
           categories_cleaned := s.categories.length })

/-- The primitive store commands `save_news` queues on its pipeline. -/
inductive RedisOp where
  | hmset (news_id : String) (fields : Projection)
  | expire (key : String)
  | setex (news_id : String) (payload : NewsData)
  | zaddTimeline (member : String) (score : Int)
  | zaddCategory (category : String) (member : String) (score : Int)
  | saddCategories (category : String)
deriving DecidableEq, Repr

/-- Effect of one queued command on the store.  `expire` sets a TTL,
which this model does not track. -/
def applyOp (s : Store) : RedisOp → Store
  | .hmset id fields =>
      { s with listHashes := alistSet s.listHashes id fields }
  | .expire _ => s
  | .setex id payload =>
      { s with details := alistSet s.details id payload }
  | .zaddTimeline m sc =>
      { s with timeline := alistSet s.timeline m sc }
  | .zaddCategory c m sc =>
      { s with catTimelines := alistSet s.catTimelines c (alistSet (catZ s c) m sc) }
  | .saddCategories c =>
      { s with categories := sadd s.categories c }

/-- The exact command sequence `save_news` queues (lines 61–76), in
queue order. -/
def save_news_ops (news_id : String) (news_data : NewsData)
    (category : String) (publish_time : Option Int) (now : Int) :
    List RedisOp :=
  let score := effScore publish_time now
  [ .hmset news_id (mkProjection news_data category score),
    .expire news_id,
    .setex news_id news_data,
    .zaddTimeline news_id score,
    .zaddCategory category news_id score,
    .saddCategories category ]

/-- `pipe.execute()` under the store collaborator's contract (spec §2:
batched execution with all-or-nothing visibility per pipeline flush):
a committed flush applies every queued command, a failed flush applies
none and surfaces the failure (`none`) to the caller, whose view of the
store is unchanged. -/
def execPipe (s : Store) (ops : List RedisOp) (commit : Bool) :
    Option Store :=
  if commit then some (ops.foldl applyOp s) else none

/-- Well-formedness of a store as `NewsStorage` maintains it:
unique members per sorted set, every category entry backed by a global
entry with the same score (spec I2), and every non-empty category
timeline registered (so the sweep's registry-driven loop reaches it). -/
def WFb (s : Store) : Prop :=
  ((s.timeline.map (fun p => p.1)).Nodup)
  ∧ (∀ p ∈ s.catTimelines, ((p.2.map (fun q => q.1)).Nodup))
  ∧ (∀ p ∈ s.catTimelines, ∀ q ∈ p.2, alookup q.1 s.timeline = some q.2)
  ∧ (∀ p ∈ s.catTimelines, p.2 ≠ [] → p.1 ∈ s.categories)

instance (s : Store) : Decidable (WFb s) := by
  unfold WFb; infer_instance

/-- The store of spec §8's pagination scenario: two records of category
`tech`, published at 1000 and 2000 ms. -/
def demo2 : Store :=
  save_news
    (save_news emptyStore "a1" [("title", "T1")] "tech" (some 1000) 99)
    "a2" [("title", "T2")] "tech" (some 2000) 99

/-- A store for the sweep claims: records `x` (score 500) and `y`
(score 1000) in category `tech`; with `now = 604800500` and
`days = 7` the sweep cutoff is exactly 500. -/
def demoSweep : Store :=
  save_news
    (save_news emptyStore "x" [("title", "tx")] "tech" (some 500) 1)
    "y" [("title", "ty")] "tech" (some 1000) 1

/-! ## Association-list and sorted-set lemmas -/

theorem alookup_eq_none {α : Type} {l : List (String × α)} {k : String}
    (h : ∀ p ∈ l, p.1 ≠ k) : alookup k l = none := by
  induction l with
  | nil => rfl
  | cons p ps ih =>
      rw [alookup, if_neg (h p (List.mem_cons_self p ps))]
      exact ih (fun q hq => h q (List.mem_cons_of_mem p hq))

theorem alookup_mem {α : Type} {l : List (String × α)} {k : String} {v : α}
    (h : alookup k l = some v) : (k, v) ∈ l := by
  induction l with
  | nil => simp [alookup] at h
  | cons p ps ih =>
      rw [alookup] at h
      by_cases hk : p.1 = k
      · rw [if_pos hk] at h
        injection h with h'
        have hp : p = (k, v) := by
          cases p; cases hk; cases h'; rfl
        rw [hp]
        exact List.mem_cons_self _ _
      · rw [if_neg hk] at h
        exact List.mem_cons_of_mem p (ih h)

theorem alookup_append {α : Type} {l1 : List (String × α)}
    (l2 : List (String × α)) {k : String} (h : ∀ p ∈ l1, p.1 ≠ k) :
    alookup k (l1 ++ l2) = alookup k l2 := by
  induction l1 with
  | nil => rfl
  | cons p ps ih =>
      rw [List.cons_append, alookup, if_neg (h p (List.mem_cons_self p ps))]
      exact ih (fun q hq => h q (List.mem_cons_of_mem p hq))

theorem mem_filter_ne {α : Type} {l : List (String × α)} {k : String}
    {p : String × α} (hp : p ∈ l.filter (fun q => q.1 ≠ k)) : p.1 ≠ k := by
  have := (List.mem_filter.mp hp).2
  simpa using this

theorem alookup_set_self {α : Type} (l : List (String × α)) (k : String)
    (v : α) : alookup k (alistSet l k v) = some v := by
  unfold alistSet
  rw [alookup_append _ (fun p hp => mem_filter_ne hp)]
  simp [alookup]

theorem alookup_set_other {α : Type} (l : List (String × α))
    {k k' : String} (v : α) (h : k' ≠ k) :
    alookup k' (alistSet l k v) = alookup k' l := by
  unfold alistSet
  induction l with
  | nil => simp [alookup, Ne.symm h]
  | cons p ps ih =>
      by_cases hp : p.1 = k
      · rw [List.filter_cons_of_neg (by simpa using hp)]
        rw [ih, alookup, if_neg (fun he => h (he.symm.trans hp))]
      · rw [List.filter_cons_of_pos (by simpa using hp), List.cons_append,
          alookup, alookup]
        by_cases hk' : p.1 = k'
        · rw [if_pos hk', if_pos hk']
        · rw [if_neg hk', if_neg hk']
          exact ih

theorem alookup_del_self {α : Type} (l : List (String × α)) (k : String) :
    alookup k (alistDel l k) = none :=
  alookup_eq_none (fun _ hp => mem_filter_ne hp)

theorem alookup_del_other {α : Type} (l : List (String × α))
    {k k' : String} (h : k' ≠ k) :
    alookup k' (alistDel l k) = alookup k' l := by
  unfold alistDel
  induction l with
  | nil => rfl
  | cons p ps ih =>
      by_cases hp : p.1 = k
      · rw [List.filter_cons_of_neg (by simpa using hp)]
        rw [ih, alookup, if_neg (fun he => h (he.symm.trans hp))]
      · rw [List.filter_cons_of_pos (by simpa using hp), alookup, alookup]
        by_cases hk' : p.1 = k'
        · rw [if_pos hk', if_pos hk']
        · rw [if_neg hk', if_neg hk']
          exact ih

theorem alookup_of_mem_nodup {α : Type} {l : List (String × α)}
    {k : String} {v : α} (hnd : (l.map (fun p => p.1)).Nodup)
    (hm : (k, v) ∈ l) : alookup k l = some v := by
  induction l with
  | nil => cases hm
  | cons p ps ih =>
      rw [List.map_cons, List.nodup_cons] at hnd
      rcases List.mem_cons.mp hm with he | hm'
      · rw [← he, alookup, if_pos rfl]
      · have hne : p.1 ≠ k := by
          intro he
          exact hnd.1 (he ▸ List.mem_map.mpr ⟨(k, v), hm', rfl⟩)
        rw [alookup, if_neg hne]
        exact ih hnd.2 hm'

theorem mem_sadd_self (l : List String) (c : String) : c ∈ sadd l c := by
  unfold sadd
  by_cases h : c ∈ l <;> simp [h]

theorem alistSet_filter_key {α : Type} (l : List (String × α)) (k : String)
    (v : α) : (alistSet l k v).filter (fun p => p.1 = k) = [(k, v)] := by
  unfold alistSet
  rw [List.filter_append]
  have h1 : (l.filter (fun p => p.1 ≠ k)).filter (fun p => p.1 = k) = [] := by
    rw [List.filter_eq_nil_iff]
    intro p hp
    simpa using mem_filter_ne hp
  rw [h1]
  simp

theorem sortZ_perm (z : List (String × Int)) : (sortZ z).Perm z :=
  List.perm_insertionSort zle z

theorem sortZ_length (z : List (String × Int)) :
    (sortZ z).length = z.length :=
  (sortZ_perm z).length_eq

theorem sortZ_pairwise (z : List (String × Int)) :
    (sortZ z).Pairwise zle :=
  List.sorted_insertionSort zle z

theorem zremrange_alookup_keep {z : List (String × Int)} {k : String}
    {sc lo hi : Int} (h : alookup k z = some sc)
    (hout : ¬ (lo ≤ sc ∧ sc ≤ hi)) :
    alookup k (zremrangebyscore z lo hi) = some sc := by
  unfold zremrangebyscore
  induction z with
  | nil => simp [alookup] at h
  | cons p ps ih =>
      rw [alookup] at h
      by_cases hk : p.1 = k
      · rw [if_pos hk] at h
        injection h with h'
        rw [List.filter_cons_of_pos (by simp only [decide_eq_true_eq]; exact h' ▸ hout), alookup,
          if_pos hk, h']
      · rw [if_neg hk] at h
        by_cases hkeep : ¬ (lo ≤ p.2 ∧ p.2 ≤ hi)
        · rw [List.filter_cons_of_pos (by simp only [decide_eq_true_eq]; exact hkeep), alookup,
            if_neg hk]
          exact ih h
        · rw [List.filter_cons_of_neg (by simpa using hkeep)]
          exact ih h

theorem zremrange_alookup_drop {z : List (String × Int)} {k : String}
    {sc lo hi : Int} (hnd : (z.map (fun p => p.1)).Nodup)
    (h : alookup k z = some sc) (hin : lo ≤ sc ∧ sc ≤ hi) :
    alookup k (zremrangebyscore z lo hi) = none := by
  unfold zremrangebyscore
  induction z with
  | nil => simp [alookup] at h
  | cons p ps ih =>
      rw [List.map_cons, List.nodup_cons] at hnd
      rw [alookup] at h
      by_cases hk : p.1 = k
      · rw [if_pos hk] at h
        injection h with h'
        rw [List.filter_cons_of_neg (by simp [h', hin.1, hin.2])]
        apply alookup_eq_none
        intro q hq he
        have hq' := (List.mem_filter.mp hq).1
        exact hnd.1 (hk ▸ he ▸ List.mem_map.mpr ⟨q, hq', rfl⟩)
      · rw [if_neg hk] at h
        by_cases hkeep : ¬ (lo ≤ p.2 ∧ p.2 ≤ hi)
        · rw [List.filter_cons_of_pos (by simp only [decide_eq_true_eq]; exact hkeep), alookup,
            if_neg hk]
          exact ih hnd.2 h
        · rw [List.filter_cons_of_neg (by simpa using hkeep)]
          exact ih hnd.2 h

theorem zremrange_idem (z : List (String × Int)) (lo hi : Int) :
    zremrangebyscore (zremrangebyscore z lo hi) lo hi
      = zremrangebyscore z lo hi := by
  unfold zremrangebyscore
  rw [List.filter_filter]
  congr 1
  funext p
  rw [Bool.and_self]

theorem mem_zrangebyscore {z : List (String × Int)} {k : String}
    {sc lo hi : Int} (h : alookup k z = some sc) (hlo : lo ≤ sc)
    (hhi : sc ≤ hi) : k ∈ zrangebyscore z lo hi := by
  unfold zrangebyscore
  have hm : (k, sc) ∈ sortZ z := (sortZ_perm z).mem_iff.mpr (alookup_mem h)
  refine List.mem_map.mpr ⟨(k, sc), ?_, rfl⟩
  rw [List.mem_reverse]
  exact List.mem_filter.mpr ⟨hm, by simpa using ⟨hlo, hhi⟩⟩

theorem not_mem_zrangebyscore {z : List (String × Int)} {k : String}
    {sc lo hi : Int} (hnd : (z.map (fun p => p.1)).Nodup)
    (h : alookup k z = some sc) (hout : ¬ (lo ≤ sc ∧ sc ≤ hi)) :
    k ∉ zrangebyscore z lo hi := by
  unfold zrangebyscore
  intro hk
  obtain ⟨p, hp, hpk⟩ := List.mem_map.mp hk
  rw [List.mem_reverse] at hp
  obtain ⟨hpz, hrange⟩ := List.mem_filter.mp hp
  have hpz' : p ∈ z := (sortZ_perm z).mem_iff.mp hpz
  have hlk : alookup k z = some p.2 :=
    alookup_of_mem_nodup hnd (by rw [← hpk]; exact hpz')
  rw [h] at hlk
  injection hlk with h2
  exact hout (h2 ▸ (by simpa using hrange))

theorem zrevrangePairs_sublist (z : List (String × Int)) (start stop : Int) :
    (zrevrangePairs z start stop).Sublist (sortZ z) :=
  (List.take_sublist _ _).trans (List.drop_sublist _ _)

theorem zrevrangePairs_pairwise (z : List (String × Int)) (start stop : Int) :
    (zrevrangePairs z start stop).Pairwise zle :=
  (sortZ_pairwise z).sublist (zrevrangePairs_sublist z start stop)

theorem zrevrangePairs_mem {z : List (String × Int)} {start stop : Int}
    {p : String × Int} (hp : p ∈ zrevrangePairs z start stop) : p ∈ z :=
  (sortZ_perm z).mem_iff.mp ((zrevrangePairs_sublist z start stop).subset hp)

theorem zrevrangePairs_of_nonneg (z : List (String × Int)) {start stop : Int}
    (h1 : 0 ≤ start) (h2 : 0 ≤ stop) :
    zrevrangePairs z start stop
      = ((sortZ z).drop start.toNat).take (stop - start + 1).toNat := by
  unfold zrevrangePairs normStart normStop
  rw [if_neg (not_lt.mpr h1), if_neg (not_lt.mpr h2)]

theorem zrevrangePairs_length (z : List (String × Int)) {start stop : Int}
    (h1 : 0 ≤ start) (h2 : 0 ≤ stop) :
    (zrevrangePairs z start stop).length
      = min (stop - start + 1).toNat (z.length - start.toNat) := by
  rw [zrevrangePairs_of_nonneg z h1 h2, List.length_take, List.length_drop,
    sortZ_length]

theorem items_map_id (ids : List String) (hs : List (String × Projection))
    (h : ∀ id ∈ ids, (alookup id hs).isSome = true) :
    (ids.filterMap (fun id => (alookup id hs).map (itemOf id))).map
      (fun it => it.id) = ids := by
  induction ids with
  | nil => rfl
  | cons i is ih =>
      obtain ⟨p, hp⟩ :=
        Option.isSome_iff_exists.mp (h i (List.mem_cons_self i is))
      rw [List.filterMap_cons, hp]
      simp only [Option.map_some']
      rw [List.map_cons]
      rw [ih (fun j hj => h j (List.mem_cons_of_mem i hj))]
      rfl

theorem foldl_delStep_timeline (ids : List String) (st : Store) :
    (ids.foldl delStep st).timeline = st.timeline := by
  induction ids generalizing st with
  | nil => rfl
  | cons i is ih => rw [List.foldl_cons, ih]; rfl

theorem foldl_delStep_catTimelines (ids : List String) (st : Store) :
    (ids.foldl delStep st).catTimelines = st.catTimelines := by
  induction ids generalizing st with
  | nil => rfl
  | cons i is ih => rw [List.foldl_cons, ih]; rfl

theorem foldl_delStep_categories (ids : List String) (st : Store) :
    (ids.foldl delStep st).categories = st.categories := by
  induction ids generalizing st with
  | nil => rfl
  | cons i is ih => rw [List.foldl_cons, ih]; rfl

theorem foldl_delStep_listHashes (ids : List String) (st : Store)
    (k : String) :
    alookup k (ids.foldl delStep st).listHashes
      = if k ∈ ids then none else alookup k st.listHashes := by
  induction ids generalizing st with
  | nil => simp
  | cons i is ih =>
      rw [List.foldl_cons, ih]
      by_cases hk : k ∈ is
      · simp [hk, List.mem_cons]
      · by_cases hik : k = i
        · subst hik
          simp [hk, delStep, alookup_del_self]
        · simp [hk, hik, delStep, alookup_del_other _ hik]

theorem foldl_delStep_details (ids : List String) (st : Store)
    (k : String) :
    alookup k (ids.foldl delStep st).details
      = if k ∈ ids then none else alookup k st.details := by
  induction ids generalizing st with
  | nil => simp
  | cons i is ih =>
      rw [List.foldl_cons, ih]
      by_cases hk : k ∈ is
      · simp [hk, List.mem_cons]
      · by_cases hik : k = i
        · subst hik
          simp [hk, delStep, alookup_del_self]
        · simp [hk, hik, delStep, alookup_del_other _ hik]

theorem foldl_sweepCat_timeline (cutoff : Int) (cs : List String)
    (st : Store) :
    (cs.foldl (sweepCatStep cutoff) st).timeline = st.timeline := by
  induction cs generalizing st with
  | nil => rfl
  | cons c cs ih => rw [List.foldl_cons, ih]; rfl

theorem foldl_sweepCat_listHashes (cutoff : Int) (cs : List String)
    (st : Store) :
    (cs.foldl (sweepCatStep cutoff) st).listHashes = st.listHashes := by
  induction cs generalizing st with
  | nil => rfl
  | cons c cs ih => rw [List.foldl_cons, ih]; rfl

theorem foldl_sweepCat_details (cutoff : Int) (cs : List String)
    (st : Store) :
    (cs.foldl (sweepCatStep cutoff) st).details = st.details := by
  induction cs generalizing st with
  | nil => rfl
  | cons c cs ih => rw [List.foldl_cons, ih]; rfl

theorem catZ_sweepCatStep (cutoff : Int) (st : Store) (c' c : String) :
    catZ (sweepCatStep cutoff st c') c
      = if c = c' then zremrangebyscore (catZ st c) 0 cutoff
        else catZ st c := by
  unfold sweepCatStep
  by_cases h : c = c'
  · subst h
    rw [if_pos rfl]
    show (alookup c (alistSet st.catTimelines c _)).getD [] = _
    rw [alookup_set_self]
    rfl
  · rw [if_neg h]
    show (alookup c (alistSet st.catTimelines c' _)).getD [] = _
    rw [alookup_set_other _ _ h]
    rfl

theorem foldl_sweepCat_catZ (cutoff : Int) (cs : List String) (st : Store)
    (c : String) :
    catZ (cs.foldl (sweepCatStep cutoff) st) c
      = if c ∈ cs then zremrangebyscore (catZ st c) 0 cutoff
        else catZ st c := by
  induction cs generalizing st with
  | nil => simp
  | cons c0 cs ih =>
      rw [List.foldl_cons, ih, catZ_sweepCatStep]
      by_cases h0 : c = c0 <;> by_cases hcs : c ∈ cs <;>
        simp [h0, hcs, List.mem_cons, zremrange_idem]

theorem cleanup_unchanged (s : Store) (now days : Int)
    (h : zrangebyscore s.timeline 0 (now - days * 86400 * 1000) = []) :
    (cleanup_old_news s now days).1 = s := by
  unfold cleanup_old_news
  rw [if_pos h]

theorem cleanup_result (s : Store) (now days : Int)
    (h : zrangebyscore s.timeline 0 (now - days * 86400 * 1000) ≠ []) :
    (cleanup_old_news s now days).1.timeline
        = zremrangebyscore s.timeline 0 (now - days * 86400 * 1000)
    ∧ (∀ c, catZ (cleanup_old_news s now days).1 c
        = if c ∈ s.categories
          then zremrangebyscore (catZ s c) 0 (now - days * 86400 * 1000)
          else catZ s c)
    ∧ (∀ k, alookup k (cleanup_old_news s now days).1.listHashes
        = if k ∈ zrangebyscore s.timeline 0 (now - days * 86400 * 1000)
          then none else alookup k s.listHashes)
    ∧ (∀ k, alookup k (cleanup_old_news s now days).1.details
        = if k ∈ zrangebyscore s.timeline 0 (now - days * 86400 * 1000)
          then none else alookup k s.details) := by
  unfold cleanup_old_news
  rw [if_neg h]
  refine ⟨?_, ?_, ?_, ?_⟩
  · rw [foldl_sweepCat_timeline]
    show zremrangebyscore (_ : Store).timeline 0 _ = _
    rw [foldl_delStep_timeline]
  · intro c
    rw [foldl_sweepCat_catZ]
    have hct : ∀ c', catZ { (zrangebyscore s.timeline 0
          (now - days * 86400 * 1000)).foldl delStep s with
        timeline := zremrangebyscore ((zrangebyscore s.timeline 0
          (now - days * 86400 * 1000)).foldl delStep s).timeline 0
          (now - days * 86400 * 1000) } c' = catZ s c' := by
      intro c'
      show (alookup c' _).getD [] = (alookup c' _).getD []
      rw [show ({ (zrangebyscore s.timeline 0
          (now - days * 86400 * 1000)).foldl delStep s with
        timeline := zremrangebyscore ((zrangebyscore s.timeline 0
          (now - days * 86400 * 1000)).foldl delStep s).timeline 0
          (now - days * 86400 * 1000) } : Store).catTimelines
        = s.catTimelines from foldl_delStep_catTimelines _ s]
    rw [hct c]
  · intro k
    rw [foldl_sweepCat_listHashes]
    show alookup k ((_ : List String).foldl delStep s).listHashes = _
    rw [foldl_delStep_listHashes]
  · intro k
    rw [foldl_sweepCat_details]
    show alookup k ((_ : List String).foldl delStep s).details = _
    rw [foldl_delStep_details]

theorem get_news_list_zero (s : Store) (cat : Option String) (page ps : Int)
    (h0 : (selectZset s cat).length = 0) :
    get_news_list s cat page ps = ⟨[], 0, page, ps, false⟩ := by
  simp only [get_news_list]
  rw [if_pos h0]

theorem get_news_list_empty_window (s : Store) (cat : Option String)
    (page ps : Int) (h0 : (selectZset s cat).length ≠ 0)
    (hw : zrevrange (selectZset s cat) ((page - 1) * ps)
      ((page - 1) * ps + ps - 1) = []) :
    get_news_list s cat page ps
      = ⟨[], (selectZset s cat).length, page, ps, false⟩ := by
  simp only [get_news_list]
  rw [if_neg h0, if_pos hw]

theorem get_news_list_main (s : Store) (cat : Option String)
    (page ps : Int) (h0 : (selectZset s cat).length ≠ 0)
    (hw : zrevrange (selectZset s cat) ((page - 1) * ps)
      ((page - 1) * ps + ps - 1) ≠ []) :
    get_news_list s cat page ps
      = ⟨(zrevrange (selectZset s cat) ((page - 1) * ps)
            ((page - 1) * ps + ps - 1)).filterMap
            (fun id => (alookup id s.listHashes).map (itemOf id)),
          (selectZset s cat).length, page, ps,
          decide ((page - 1) * ps
            + (((zrevrange (selectZset s cat) ((page - 1) * ps)
                ((page - 1) * ps + ps - 1)).filterMap
                (fun id => (alookup id s.listHashes).map
                  (itemOf id))).length : Int)
            < ((selectZset s cat).length : Int))⟩ := by
  simp only [get_news_list]
  rw [if_neg h0, if_neg hw]

theorem get_news_list_total (s : Store) (cat : Option String)
    (page ps : Int) :
    (get_news_list s cat page ps).total = (selectZset s cat).length := by
  by_cases h0 : (selectZset s cat).length = 0
  · rw [get_news_list_zero s cat page ps h0, h0]
  · by_cases hw : zrevrange (selectZset s cat) ((page - 1) * ps)
        ((page - 1) * ps + ps - 1) = []
    · rw [get_news_list_empty_window s cat page ps h0 hw]
    · rw [get_news_list_main s cat page ps h0 hw]

theorem has_next_of_more (s : Store) (cat : Option String) (page ps : Int)
    (hp : 1 ≤ page) (hps : 1 ≤ ps)
    (h : page * ps < ((selectZset s cat).length : Int)) :
    (get_news_list s cat page ps).has_next = true := by
  have hring : (page - 1) * ps = page * ps - ps := by ring
  have hstart : 0 ≤ (page - 1) * ps := mul_nonneg (by omega) (by omega)
  have hpps : 1 ≤ page * ps := by
    have := mul_le_mul hp hps (by omega) (by omega)
    simpa using this
  have hstop : 0 ≤ (page - 1) * ps + ps - 1 := by omega
  have h0 : (selectZset s cat).length ≠ 0 := by omega
  have hlen := zrevrangePairs_length (selectZset s cat) hstart hstop
  have htake : ((page - 1) * ps + ps - 1 - (page - 1) * ps + 1) = ps := by
    ring
  rw [htake] at hlen
  have hposlen :
      (zrevrangePairs (selectZset s cat) ((page - 1) * ps)
        ((page - 1) * ps + ps - 1)).length ≠ 0 := by
    rw [hlen]
    omega
  have hw : zrevrange (selectZset s cat) ((page - 1) * ps)
      ((page - 1) * ps + ps - 1) ≠ [] := by
    intro he
    apply hposlen
    have := congrArg List.length he
    simpa [zrevrange] using this
  rw [get_news_list_main s cat page ps h0 hw]
  have hbound : (((zrevrange (selectZset s cat) ((page - 1) * ps)
      ((page - 1) * ps + ps - 1)).filterMap
      (fun id => (alookup id s.listHashes).map (itemOf id))).length : Int)
      ≤ ps := by
    have h1 := List.length_filterMap_le
      (fun id => (alookup id s.listHashes).map (itemOf id))
      (zrevrange (selectZset s cat) ((page - 1) * ps)
        ((page - 1) * ps + ps - 1))
    have h2 : (zrevrange (selectZset s cat) ((page - 1) * ps)
        ((page - 1) * ps + ps - 1)).length
        = (zrevrangePairs (selectZset s cat) ((page - 1) * ps)
          ((page - 1) * ps + ps - 1)).length := by
      simp [zrevrange]
    rw [h2, hlen] at h1
    omega
  show decide _ = true
  rw [decide_eq_true_iff]
  omega

theorem effScore_ne_zero (pt : Option Int) (now : Int) (h : now ≠ 0) :
    effScore pt now ≠ 0 := by
  cases pt with
  | none => exact h
  | some t =>
      by_cases ht : t = 0 <;> simp [effScore, ht, h]

/-! ## Claim theorems -/

/-- C5: starting from the empty store, after saving `a1` (title `T1`,
publish time 1000) and `a2` (title `T2`, publish time 2000) in category
`tech`, `list("tech", 1, 1)` returns exactly `{id: "a2", title: "T2"}`
with `total = 2` and `hasNext = true`, and `list("tech", 2, 1)` returns
exactly `{id: "a1", title: "T1"}` with `hasNext = false`. -/
theorem c5_scenario :
    get_news_list demo2 (some "tech") 1 1
      = ⟨[⟨"T2", "tech", 2000, "", "", "", "a2"⟩], 2, 1, 1, true⟩
    ∧ get_news_list demo2 (some "tech") 2 1
      = ⟨[⟨"T1", "tech", 1000, "", "", "", "a1"⟩], 2, 2, 1, false⟩ := by
  constructor <;> decide

/-- C3: contrary to the claim, `delete_news` removes the category from
the registry even while another record of that category remains: with
`a1` and `a2` both saved under `tech`, deleting `a1` empties the
registry although `a2` is still in the `tech` timeline with its hash
intact (`pipe.srem(self.CATEGORIES_SET, category)` at line 147 of
`storage.py`). -/
theorem c3_delete_removes_live_category :
    (delete_news demo2 "a1" "tech").categories = []
    ∧ alookup "a2" (catZ (delete_news demo2 "a1" "tech") "tech")
        = some 2000
    ∧ alookup "a2" (delete_news demo2 "a1" "tech").listHashes ≠ none := by
  refine ⟨by decide, by decide, by decide⟩

/-- C4: `save_news` queues the projection write, the detail write, both
timeline insertions and the category registration on a single pipeline;
under the store's all-or-nothing flush contract a failed commit yields
no new state (the caller still sees `s`), and a successful commit is
exactly the whole batch, after which the saved id has a retrievable
projection and detail and sits in the global and category timelines
with the category registered. -/
theorem c4_save_atomic_batch (s : Store) (id : String) (d : NewsData)
    (cat : String) (pt : Option Int) (now : Int) :
    execPipe s (save_news_ops id d cat pt now) false = none
    ∧ execPipe s (save_news_ops id d cat pt now) true
        = some (save_news s id d cat pt now)
    ∧ alookup id (save_news s id d cat pt now).listHashes
        = some (mkProjection d cat (effScore pt now))
    ∧ alookup id (save_news s id d cat pt now).details = some d
    ∧ alookup id (save_news s id d cat pt now).timeline
        = some (effScore pt now)
    ∧ alookup id (catZ (save_news s id d cat pt now) cat)
        = some (effScore pt now)
    ∧ cat ∈ (save_news s id d cat pt now).categories := by
  refine ⟨rfl, rfl, ?_, ?_, ?_, ?_, ?_⟩
  · show alookup id (alistSet s.listHashes id _) = _
    rw [alookup_set_self]
  · show alookup id (alistSet s.details id _) = _
    rw [alookup_set_self]
  · show alookup id (alistSet s.timeline id _) = _
    rw [alookup_set_self]
  · show alookup id ((alookup cat (alistSet s.catTimelines cat _)).getD [])
        = _
    rw [alookup_set_self]
    show alookup id (alistSet (catZ s cat) id _) = _
    rw [alookup_set_self]
  · exact mem_sadd_self s.categories cat

/-- C6 counterexample: the claim fails when the later save carries
`publishTimeMillis = 0`: saving `a` at time 7 and then re-saving it
with publish time 0 (clock at 5) leaves the timeline score 5, the
clock value, not the later `publishTimeMillis` 0, because Python's
`publish_time or now` treats 0 as falsy. -/
theorem c6_cex :
    alookup "a" (save_news (save_news emptyStore "a" [] "c" (some 7) 5)
      "a" [] "c" (some 0) 5).timeline = some 5
    ∧ ¬ alookup "a" (save_news (save_news emptyStore "a" [] "c" (some 7) 5)
      "a" [] "c" (some 0) 5).timeline = some 0 := by
  constructor <;> decide

/-- C6 amended: for two saves of the same id in the same category with
different publish times, the later one nonzero, the global and
category timelines each hold exactly one entry for that id afterwards,
scored with the later publish time. -/
theorem c6_resave_updates_score (s : Store) (id : String)
    (d1 d2 : NewsData) (cat : String) (t1 t2 now1 now2 : Int)
    (_hne : t1 ≠ t2) (h2 : t2 ≠ 0) :
    ((save_news (save_news s id d1 cat (some t1) now1) id d2 cat
        (some t2) now2).timeline.filter (fun p => p.1 = id)).length = 1
    ∧ alookup id (save_news (save_news s id d1 cat (some t1) now1) id d2
        cat (some t2) now2).timeline = some t2
    ∧ ((catZ (save_news (save_news s id d1 cat (some t1) now1) id d2 cat
        (some t2) now2) cat).filter (fun p => p.1 = id)).length = 1
    ∧ alookup id (catZ (save_news (save_news s id d1 cat (some t1) now1)
        id d2 cat (some t2) now2) cat) = some t2 := by
  have hsc : effScore (some t2) now2 = t2 := by
    simp [effScore, h2]
  refine ⟨?_, ?_, ?_, ?_⟩
  · show ((alistSet _ id _).filter (fun p => p.1 = id)).length = 1
    rw [alistSet_filter_key]
    rfl
  · show alookup id (alistSet _ id (effScore (some t2) now2)) = some t2
    rw [alookup_set_self, hsc]
  · show (((alookup cat (alistSet _ cat _)).getD ([] : List (String × Int))).filter
        (fun p => p.1 = id)).length = 1
    rw [alookup_set_self]
    show ((alistSet (catZ (save_news s id d1 cat (some t1) now1) cat) id
        (effScore (some t2) now2)).filter (fun p => p.1 = id)).length = 1
    rw [alistSet_filter_key]
    rfl
  · show alookup id ((alookup cat (alistSet _ cat _)).getD []) = some t2
    rw [alookup_set_self]
    show alookup id (alistSet _ id (effScore (some t2) now2)) = some t2
    rw [alookup_set_self, hsc]

/-- Witness for the amended C6 at a concrete input. -/
theorem c6_resave_updates_score_witness :
    ((save_news (save_news emptyStore "a" [] "c" (some 1) 9) "a" [] "c"
        (some 2) 9).timeline.filter (fun p => p.1 = "a")).length = 1
    ∧ alookup "a" (save_news (save_news emptyStore "a" [] "c" (some 1) 9)
        "a" [] "c" (some 2) 9).timeline = some 2
    ∧ ((catZ (save_news (save_news emptyStore "a" [] "c" (some 1) 9) "a"
        [] "c" (some 2) 9) "c").filter (fun p => p.1 = "a")).length = 1
    ∧ alookup "a" (catZ (save_news (save_news emptyStore "a" [] "c"
        (some 1) 9) "a" [] "c" (some 2) 9) "c") = some 2 :=
  c6_resave_updates_score emptyStore "a" [] [] "c" 1 2 9 9
    (by decide) (by decide)

/-- C7 counterexample: no `InvalidArgument` rejection exists.  A list
call with `page = 0` reaches the store and returns data: on the
two-record `tech` timeline it yields the oldest record (Redis treats
the negative ranks `start = -1`, `stop = -1` as counting from the end)
with `hasNext = true`; and a save with an empty id happily writes a
projection under the empty-string key. -/
theorem c7_cex :
    get_news_list demo2 (some "tech") 0 1
      = ⟨[⟨"T1", "tech", 1000, "", "", "", "a1"⟩], 2, 0, 1, true⟩
    ∧ alookup "" (save_news emptyStore "" [] "c" (some 5) 9).listHashes
      = some ⟨"", "c", 5, "", "", ""⟩ := by
  constructor <;> decide

/-- C7 amended: the engine performs no argument validation.  A save or
delete with an empty id proceeds against the store (the projection is
written under, resp. removed from, the empty-string key), and a list
call with any `page`/`pageSize` — including values below 1 — still
issues the store calls and reports the timeline's true cardinality. -/
theorem c7_no_argument_validation (s : Store) (d : NewsData)
    (cat : String) (pt : Option Int) (now page ps : Int) :
    alookup "" (save_news s "" d cat pt now).listHashes
        = some (mkProjection d cat (effScore pt now))
    ∧ alookup "" (delete_news s "" cat).listHashes = none
    ∧ (get_news_list s none page ps).total = s.timeline.length := by
  refine ⟨?_, ?_, ?_⟩
  · show alookup "" (alistSet s.listHashes "" _) = _
    rw [alookup_set_self]
  · show alookup "" (alistDel s.listHashes "") = none
    rw [alookup_del_self]
  · exact get_news_list_total s none page ps

/-- C8: `get_news_detail` returns an explicit `none` — never an
error — both for an id with no stored detail (never saved) and for an
id whose record the sweep just removed, and the two cases produce the
same value. -/
theorem c8_detail_absent (s : Store) (id : String) (now days : Int) :
    (alookup id s.details = none → get_news_detail s id = none)
    ∧ (∀ sc : Int, alookup id s.timeline = some sc → 0 ≤ sc →
        sc ≤ now - days * 86400 * 1000 →
        get_news_detail (cleanup_old_news s now days).1 id = none) := by
  constructor
  · intro h
    simp [get_news_detail, h]
  · intro sc h h0 hc
    have hmem : id ∈ zrangebyscore s.timeline 0
        (now - days * 86400 * 1000) := mem_zrangebyscore h h0 hc
    have hdet := (cleanup_result s now days
      (List.ne_nil_of_mem hmem)).2.2.2 id
    rw [if_pos hmem] at hdet
    simp [get_news_detail, hdet]

/-- Witness for C8 at concrete inputs: an id never saved in
`demoSweep`, and the id `x` (score 500) swept at cutoff 500. -/
theorem c8_detail_absent_witness :
    get_news_detail demoSweep "nope" = none
    ∧ get_news_detail (cleanup_old_news demoSweep 604800500 7).1 "x"
      = none :=
  ⟨(c8_detail_absent demoSweep "nope" 604800500 7).1 (by decide),
   (c8_detail_absent demoSweep "x" 604800500 7).2 500 (by decide)
     (by decide) (by decide)⟩

/-- C10: a save with `publishTimeMillis = 0` stores the clock value
`now` as score and projection publish time — indistinguishable from
omitting the argument — and (with a nonzero clock) no save can ever
place a zero score in the timeline. -/
theorem c10_zero_publish_time (s : Store) (id : String) (d : NewsData)
    (cat : String) (now : Int) (h : now ≠ 0) :
    save_news s id d cat (some 0) now = save_news s id d cat none now
    ∧ alookup id (save_news s id d cat (some 0) now).timeline = some now
    ∧ alookup id (save_news s id d cat (some 0) now).listHashes
        = some (mkProjection d cat now)
    ∧ ∀ pt : Option Int,
        ¬ alookup id (save_news s id d cat pt now).timeline = some 0 := by
  refine ⟨?_, ?_, ?_, ?_⟩
  · simp [save_news, effScore]
  · show alookup id (alistSet s.timeline id (effScore (some 0) now)) = _
    rw [alookup_set_self]
    simp [effScore]
  · show alookup id (alistSet s.listHashes id _) = _
    rw [alookup_set_self]
    simp [effScore]
  · intro pt hcontra
    rw [show (save_news s id d cat pt now).timeline
        = alistSet s.timeline id (effScore pt now) from rfl,
      alookup_set_self] at hcontra
    injection hcontra with h0
    exact effScore_ne_zero pt now h h0

/-- Witness for C10 at a concrete input. -/
theorem c10_zero_publish_time_witness :
    save_news emptyStore "x" [] "c" (some 0) 5
        = save_news emptyStore "x" [] "c" none 5
    ∧ alookup "x" (save_news emptyStore "x" [] "c" (some 0) 5).timeline
        = some 5
    ∧ alookup "x" (save_news emptyStore "x" [] "c" (some 0) 5).listHashes
        = some (mkProjection [] "c" 5)
    ∧ ∀ pt : Option Int,
        ¬ alookup "x" (save_news emptyStore "x" [] "c" pt 5).timeline
          = some 0 :=
  c10_zero_publish_time emptyStore "x" [] "c" 5 (by decide)

/-- C2 counterexample: the sweep's score range is inclusive of the
cutoff (`zrangebyscore(..., 0, cutoff)` / `zremrangebyscore(..., 0,
cutoff)`), so a record whose publish time equals `now - maxAge` —
which the claim says must survive (`publishTimeMillis >= cutoff`) — is
deleted: in `demoSweep`, `x` has score 500, the cutoff for
`now = 604800500`, `days = 7` is exactly 500, and after the sweep `x`
is gone from the timeline together with its detail. -/
theorem c2_cex :
    alookup "x" demoSweep.timeline = some 500
    ∧ (500 : Int) ≥ 604800500 - 7 * 86400 * 1000
    ∧ alookup "x" (cleanup_old_news demoSweep 604800500 7).1.timeline
        = none
    ∧ alookup "x" (cleanup_old_news demoSweep 604800500 7).1.details
        = none := by
  refine ⟨by decide, by decide, by decide, by decide⟩

/-- C2 amended: after `cleanup_old_news` on a well-formed store with
nonnegative publish times, no id with score at most the cutoff
(inclusive) remains in the global or any category timeline, and every
id with score strictly greater than the cutoff keeps its timeline
entries, its projection and its detail. -/
theorem c2_sweep_boundary (s : Store) (now days : Int) (hwf : WFb s)
    (hnn : ∀ p ∈ s.timeline, 0 ≤ p.2) :
    (∀ id sc, alookup id s.timeline = some sc →
        sc ≤ now - days * 86400 * 1000 →
        alookup id (cleanup_old_news s now days).1.timeline = none)
    ∧ (∀ c id sc, alookup id (catZ s c) = some sc →
        sc ≤ now - days * 86400 * 1000 →
        alookup id (catZ (cleanup_old_news s now days).1 c) = none)
    ∧ (∀ id sc, alookup id s.timeline = some sc →
        now - days * 86400 * 1000 < sc →
        alookup id (cleanup_old_news s now days).1.timeline = some sc
        ∧ alookup id (cleanup_old_news s now days).1.listHashes
            = alookup id s.listHashes
        ∧ alookup id (cleanup_old_news s now days).1.details
            = alookup id s.details)
    ∧ (∀ c id sc, alookup id (catZ s c) = some sc →
        now - days * 86400 * 1000 < sc →
        alookup id (catZ (cleanup_old_news s now days).1 c) = some sc) := by
  obtain ⟨hnd, hndc, hsub, hreg⟩ := hwf
  refine ⟨?_, ?_, ?_, ?_⟩
  · intro id sc h hsc
    have h0 : 0 ≤ sc := hnn _ (alookup_mem h)
    have hmem : id ∈ zrangebyscore s.timeline 0
        (now - days * 86400 * 1000) := mem_zrangebyscore h h0 hsc
    rw [(cleanup_result s now days (List.ne_nil_of_mem hmem)).1]
    exact zremrange_alookup_drop hnd h ⟨h0, hsc⟩
  · intro c id sc h hsc
    have hmz : (id, sc) ∈ catZ s c := alookup_mem h
    rcases hcz : alookup c s.catTimelines with _ | z
    · rw [catZ, hcz] at hmz
      cases hmz
    · have hzeq : catZ s c = z := by
        rw [catZ, hcz]
        rfl
      rw [hzeq] at hmz
      have hce : (c, z) ∈ s.catTimelines := alookup_mem hcz
      have hglob : alookup id s.timeline = some sc :=
        hsub _ hce _ hmz
      have h0 : 0 ≤ sc := hnn _ (alookup_mem hglob)
      have hcreg : c ∈ s.categories :=
        hreg _ hce (List.ne_nil_of_mem hmz)
      have hmemg : id ∈ zrangebyscore s.timeline 0
          (now - days * 86400 * 1000) := mem_zrangebyscore hglob h0 hsc
      rw [(cleanup_result s now days (List.ne_nil_of_mem hmemg)).2.1 c,
        if_pos hcreg]
      have hndz : ((catZ s c).map (fun p => p.1)).Nodup := by
        rw [hzeq]
        exact hndc _ hce
      rw [hzeq] at hndz h ⊢
      exact zremrange_alookup_drop hndz h ⟨h0, hsc⟩
  · intro id sc h hsc
    by_cases hol : zrangebyscore s.timeline 0
        (now - days * 86400 * 1000) = []
    · rw [cleanup_unchanged s now days hol]
      exact ⟨h, rfl, rfl⟩
    · obtain ⟨ht, _, hh, hd⟩ := cleanup_result s now days hol
      have hout : ¬ (0 ≤ sc ∧ sc ≤ now - days * 86400 * 1000) := by
        intro hcon
        omega
      have hnm : id ∉ zrangebyscore s.timeline 0
          (now - days * 86400 * 1000) :=
        not_mem_zrangebyscore hnd h hout
      refine ⟨?_, ?_, ?_⟩
      · rw [ht]
        exact zremrange_alookup_keep h hout
      · rw [hh id, if_neg hnm]
      · rw [hd id, if_neg hnm]
  · intro c id sc h hsc
    by_cases hol : zrangebyscore s.timeline 0
        (now - days * 86400 * 1000) = []
    · rw [cleanup_unchanged s now days hol]
      exact h
    · rw [(cleanup_result s now days hol).2.1 c]
      have hout : ¬ (0 ≤ sc ∧ sc ≤ now - days * 86400 * 1000) := by
        intro hcon
        omega
      by_cases hcreg : c ∈ s.categories
      · rw [if_pos hcreg]
        exact zremrange_alookup_keep h hout
      · rw [if_neg hcreg]
        exact h

/-- Witness for the amended C2 on `demoSweep`: cutoff 500 sweeps `x`
(score 500) out of the timeline while `y` (score 1000) keeps its
timeline entries. -/
theorem c2_sweep_boundary_witness :
    alookup "x" (cleanup_old_news demoSweep 604800500 7).1.timeline
        = none
    ∧ alookup "y" (cleanup_old_news demoSweep 604800500 7).1.timeline
        = some 1000
    ∧ alookup "y"
        (catZ (cleanup_old_news demoSweep 604800500 7).1 "tech")
        = some 1000 := by
  have h := c2_sweep_boundary demoSweep 604800500 7 (by decide)
    (by decide)
  exact ⟨h.1 "x" 500 (by decide) (by decide),
    (h.2.2.1 "y" 1000 (by decide) (by decide)).1,
    h.2.2.2 "tech" "y" 1000 (by decide) (by decide)⟩

/-- C9 counterexample: the claim's final clause is impossible.  Because
dropped projections only shorten `items`, `has_next = start +
len(items) < total` can never be false while `page * pageSize < total`
(for valid `page`, `pageSize`): there is no store, category or page
for which a page strictly inside the data reports `hasNext = false`. -/
theorem c9_cex :
    ¬ ∃ (s : Store) (cat : Option String) (page ps : Int),
      1 ≤ page ∧ 1 ≤ ps
      ∧ page * ps < (((get_news_list s cat page ps).total : Int))
      ∧ (get_news_list s cat page ps).has_next = false := by
  rintro ⟨s, cat, page, ps, hp, hps, hlt, hfalse⟩
  rw [get_news_list_total] at hlt
  rw [has_next_of_more s cat page ps hp hps hlt] at hfalse
  simp at hfalse

/-- C9 amended: `has_next` equals `(page-1)*pageSize + |items| < total`
whenever the selected timeline and the id window are non-empty, and is
false when the timeline is empty or the window is past the end; an
absent projection lowers the item count, which can only make
`has_next` true spuriously — with a valid page strictly inside the
data (`page*pageSize < total`) it is always true. -/
theorem c9_has_next_flag (s : Store) (cat : Option String)
    (page ps : Int) :
    ((selectZset s cat).length = 0 →
        (get_news_list s cat page ps).has_next = false)
    ∧ ((selectZset s cat).length ≠ 0 →
        zrevrange (selectZset s cat) ((page - 1) * ps)
          ((page - 1) * ps + ps - 1) = [] →
        (get_news_list s cat page ps).has_next = false)
    ∧ ((selectZset s cat).length ≠ 0 →
        zrevrange (selectZset s cat) ((page - 1) * ps)
          ((page - 1) * ps + ps - 1) ≠ [] →
        ((get_news_list s cat page ps).has_next = true ↔
          (page - 1) * ps
            + ((get_news_list s cat page ps).items.length : Int)
            < ((selectZset s cat).length : Int)))
    ∧ (1 ≤ page → 1 ≤ ps →
        page * ps < ((selectZset s cat).length : Int) →
        (get_news_list s cat page ps).has_next = true) := by
  refine ⟨?_, ?_, ?_, ?_⟩
  · intro h0
    rw [get_news_list_zero s cat page ps h0]
  · intro h0 hw
    rw [get_news_list_empty_window s cat page ps h0 hw]
  · intro h0 hw
    rw [get_news_list_main s cat page ps h0 hw]
    exact decide_eq_true_iff
  · exact has_next_of_more s cat page ps

/-- Witness for the amended C9: the empty store has `has_next = false`,
and page 1 of size 1 over the two-record `tech` timeline has
`has_next = true`. -/
theorem c9_has_next_flag_witness :
    (get_news_list emptyStore none 1 1).has_next = false
    ∧ (get_news_list demo2 (some "tech") 1 1).has_next = true :=
  ⟨(c9_has_next_flag emptyStore none 1 1).1 (by decide),
   (c9_has_next_flag demo2 (some "tech") 1 1).2.2.2 (by decide)
     (by decide) (by decide)⟩

/-- C1: for any timeline selection (global or category), page ≥ 1 and
pageSize ≥ 1, assuming every indexed id has a stored projection (true
in steady state after completed saves): `total` is the set's
cardinality; the returned items are exactly the ids of the zero-based
rank window `[(page-1)*pageSize, page*pageSize - 1]`; their count is
`min(pageSize, max(0, N - (page-1)*pageSize))`; the window is in
descending score order and drawn from the selected timeline; and a
page past the end yields an empty item list (with `total`, by the
first conjunct, still reported truthfully). -/
theorem c1_pagination (s : Store) (cat : Option String) (page ps : Int)
    (hp : 1 ≤ page) (hps : 1 ≤ ps)
    (hproj : ∀ p ∈ selectZset s cat,
      (alookup p.1 s.listHashes).isSome = true) :
    (get_news_list s cat page ps).total = (selectZset s cat).length
    ∧ (get_news_list s cat page ps).items.map (fun it => it.id)
        = (zrevrangePairs (selectZset s cat) ((page - 1) * ps)
            ((page - 1) * ps + ps - 1)).map (fun p => p.1)
    ∧ ((get_news_list s cat page ps).items.length : Int)
        = min ps (max 0 (((selectZset s cat).length : Int)
            - (page - 1) * ps))
    ∧ (zrevrangePairs (selectZset s cat) ((page - 1) * ps)
        ((page - 1) * ps + ps - 1)).Pairwise (fun a b => b.2 ≤ a.2)
    ∧ (∀ p ∈ zrevrangePairs (selectZset s cat) ((page - 1) * ps)
        ((page - 1) * ps + ps - 1), p ∈ selectZset s cat)
    ∧ (((selectZset s cat).length : Int) ≤ (page - 1) * ps →
        (get_news_list s cat page ps).items = []) := by
  have hstart : 0 ≤ (page - 1) * ps := mul_nonneg (by omega) (by omega)
  have hstop : 0 ≤ (page - 1) * ps + ps - 1 := by omega
  have hlen := zrevrangePairs_length (selectZset s cat) hstart hstop
  have htake : ((page - 1) * ps + ps - 1 - (page - 1) * ps + 1) = ps := by
    ring
  rw [htake] at hlen
  have hpw : (zrevrangePairs (selectZset s cat) ((page - 1) * ps)
      ((page - 1) * ps + ps - 1)).Pairwise (fun a b => b.2 ≤ a.2) :=
    (zrevrangePairs_pairwise _ _ _).imp
      (fun hab => hab.elim le_of_lt (fun hh => le_of_eq hh.1.symm))
  have hmemz : ∀ p ∈ zrevrangePairs (selectZset s cat) ((page - 1) * ps)
      ((page - 1) * ps + ps - 1), p ∈ selectZset s cat :=
    fun _ hp' => zrevrangePairs_mem hp'
  by_cases h0 : (selectZset s cat).length = 0
  · have hzp : zrevrangePairs (selectZset s cat) ((page - 1) * ps)
        ((page - 1) * ps + ps - 1) = [] := by
      apply List.length_eq_zero.mp
      rw [hlen, h0]
      omega
    rw [get_news_list_zero s cat page ps h0]
    refine ⟨h0.symm, ?_, ?_, hpw, hmemz, fun _ => rfl⟩
    · rw [hzp]
      rfl
    · show ((([] : List Item).length : Nat) : Int) = _
      simp only [List.length_nil]
      omega
  · by_cases hw : zrevrange (selectZset s cat) ((page - 1) * ps)
        ((page - 1) * ps + ps - 1) = []
    · have hplen0 : (zrevrangePairs (selectZset s cat) ((page - 1) * ps)
          ((page - 1) * ps + ps - 1)).length = 0 := by
        have := congrArg List.length hw
        simpa [zrevrange] using this
      have hzp : zrevrangePairs (selectZset s cat) ((page - 1) * ps)
          ((page - 1) * ps + ps - 1) = [] :=
        List.length_eq_zero.mp hplen0
      have hmin0 : min ps.toNat ((selectZset s cat).length
          - ((page - 1) * ps).toNat) = 0 := by
        rw [← hlen]
        exact hplen0
      rw [get_news_list_empty_window s cat page ps h0 hw]
      refine ⟨rfl, ?_, ?_, hpw, hmemz, fun _ => rfl⟩
      · rw [hzp]
        rfl
      · show ((([] : List Item).length : Nat) : Int) = _
        simp only [List.length_nil]
        omega
    · rw [get_news_list_main s cat page ps h0 hw]
      have hallsome : ∀ id ∈ zrevrange (selectZset s cat)
          ((page - 1) * ps) ((page - 1) * ps + ps - 1),
          (alookup id s.listHashes).isSome = true := by
        intro id hid
        obtain ⟨p, hp', hpe⟩ := List.mem_map.mp hid
        rw [← hpe]
        exact hproj p (zrevrangePairs_mem hp')
      have hids := items_map_id (zrevrange (selectZset s cat)
        ((page - 1) * ps) ((page - 1) * ps + ps - 1)) s.listHashes
        hallsome
      have hlen2 : ((zrevrange (selectZset s cat) ((page - 1) * ps)
          ((page - 1) * ps + ps - 1)).filterMap
          (fun id => (alookup id s.listHashes).map (itemOf id))).length
          = (zrevrange (selectZset s cat) ((page - 1) * ps)
            ((page - 1) * ps + ps - 1)).length := by
        have := congrArg List.length hids
        simpa using this
      have hlen3 : (zrevrange (selectZset s cat) ((page - 1) * ps)
          ((page - 1) * ps + ps - 1)).length
          = min ps.toNat ((selectZset s cat).length
            - ((page - 1) * ps).toNat) := by
        rw [← hlen]
        simp [zrevrange]
      refine ⟨rfl, ?_, ?_, hpw, hmemz, ?_⟩
      · show ((zrevrange (selectZset s cat) ((page - 1) * ps)
            ((page - 1) * ps + ps - 1)).filterMap
            (fun id => (alookup id s.listHashes).map (itemOf id))).map
            (fun it => it.id) = _
        rw [hids]
        rfl
      · show (((zrevrange (selectZset s cat) ((page - 1) * ps)
            ((page - 1) * ps + ps - 1)).filterMap
            (fun id => (alookup id s.listHashes).map
              (itemOf id))).length : Int) = _
        rw [hlen2, hlen3]
        omega
      · intro hle
        exfalso
        apply hw
        apply List.length_eq_zero.mp
        rw [hlen3]
        omega

/-- Witness for C1 on the two-record `tech` timeline, page 1 of
size 1. -/
theorem c1_pagination_witness :
    (get_news_list demo2 (some "tech") 1 1).total
        = (selectZset demo2 (some "tech")).length
    ∧ (get_news_list demo2 (some "tech") 1 1).items.map
        (fun it => it.id)
        = (zrevrangePairs (selectZset demo2 (some "tech")) ((1 - 1) * 1)
            ((1 - 1) * 1 + 1 - 1)).map (fun p => p.1)
    ∧ ((get_news_list demo2 (some "tech") 1 1).items.length : Int)
        = min 1 (max 0 (((selectZset demo2 (some "tech")).length : Int)
            - (1 - 1) * 1))
    ∧ (zrevrangePairs (selectZset demo2 (some "tech")) ((1 - 1) * 1)
        ((1 - 1) * 1 + 1 - 1)).Pairwise (fun a b => b.2 ≤ a.2)
    ∧ (∀ p ∈ zrevrangePairs (selectZset demo2 (some "tech"))
        ((1 - 1) * 1) ((1 - 1) * 1 + 1 - 1),
        p ∈ selectZset demo2 (some "tech"))
    ∧ (((selectZset demo2 (some "tech")).length : Int) ≤ (1 - 1) * 1 →
        (get_news_list demo2 (some "tech") 1 1).items = []) :=
  c1_pagination demo2 (some "tech") 1 1 (by decide) (by decide)
    (by decide)

end Spider
